import Mathlib

/-!
Verification development for the text-chunking core of the educational-content
web application: the page builder (`paginateContent` in
`src/components/SubtopicDetailModal.tsx`), the line classifiers it and the
rendering layer use, the section parser (`parseAnalysis` in
`src/components/AnalysisModal.tsx`), and the page-navigation handlers.

Strings are modelled by Lean `String`; a JavaScript regular-expression test is
modelled by an executable Boolean matcher whose value agrees with the regex on
every input (the backtracking of each pattern is resolved by hand: for each
pattern the set of matching strings is characterised and the characterisation
is implemented directly).  Pages are modelled both as lists of lines
(`paginatePages`) and, exactly as the source stores them, as the same lists
joined with a newline (`paginateContent`).
-/

namespace VidyaApp

/-- The character class of JavaScript whitespace: the set matched by the regex
class used in the source's patterns and removed by `String.prototype.trim`
(WhiteSpace plus LineTerminator). -/
def isJsWs (c : Char) : Bool :=
  c == ' ' || c == '\t' || c == '\n' || c == '\r' || c == '\x0b' || c == '\x0c' ||
  c == '\u00a0' || c == '\u1680' ||
  (decide (0x2000 ≤ c.toNat) && decide (c.toNat ≤ 0x200a)) ||
  c == '\u2028' || c == '\u2029' || c == '\u202f' || c == '\u205f' ||
  c == '\u3000' || c == '\ufeff'

/-- JavaScript `s.trim()`: drop leading and trailing whitespace. -/
def jsTrim (s : String) : String :=
  String.mk (((s.toList.dropWhile isJsWs).reverse.dropWhile isJsWs).reverse)

/-- Splitting accumulator: collect the current chunk in reverse until a
newline closes it. -/
def splitNlAux : List Char → List Char → List String
  | acc, [] => [String.mk acc.reverse]
  | acc, c :: cs =>
    if c == '\n' then String.mk acc.reverse :: splitNlAux [] cs
    else splitNlAux (c :: acc) cs

/-- JavaScript `content.split("\n")`: cut the string at every newline
character, keeping empty chunks (the empty string yields one empty chunk). -/
def splitNl (content : String) : List String :=
  splitNlAux [] content.toList

/-- Both components start with
`content.split("\n").filter((line) => line.trim() !== "")`. -/
def filteredLines (content : String) : List String :=
  (splitNl content).filter (fun line => !(jsTrim line == ""))

/-- The ECMAScript LineTerminator characters: the set a JavaScript regex dot
(without the dot-all flag) refuses to match. -/
def isLineTerm (c : Char) : Bool :=
  c == '\n' || c == '\r' || c == '\u2028' || c == '\u2029'

/-- Matcher for the regex tail pattern consisting of optional whitespace
followed by one or more dot-matched characters reaching the end of the string
(the dot of a JavaScript regex matches anything but a line terminator).  A
whitespace run followed by a non-empty line-terminator-free remainder exists in
`r` iff either the remainder after the maximal whitespace run is non-empty and
free of line terminators, or `r` is all whitespace, non-empty, and its last
character is not a line terminator. -/
def matchTailDot (r : List Char) : Bool :=
  let t := r.dropWhile isJsWs
  if t.isEmpty then
    match r.getLast? with
    | some c => !isLineTerm c
    | none => false
  else !(t.any isLineTerm)

/-- Matcher for the source's first heading test: one or more leading hash
marks, optional whitespace, then at least one dot-matched (non-line-terminator)
character to the end of the line.  Backtracking lets the dot-run reclaim hash
marks, so a string of two or more hash marks alone also matches. -/
def matchHashHeading (s : String) : Bool :=
  let cs := s.toList
  let m := (cs.takeWhile (fun c => c == '#')).length
  let rest := cs.dropWhile (fun c => c == '#')
  if m == 0 then false
  else matchTailDot rest || (decide (2 ≤ m) && rest.isEmpty)

/-- Matcher for the source's bullet-or-numbered test: optional whitespace, then
either a single dash-or-asterisk marker or a digit run followed by a dot, then
optional whitespace and at least one dot-matched (non-line-terminator)
character to the end. -/
def matchBulletNum (s : String) : Bool :=
  let w := s.toList.dropWhile isJsWs
  match w with
  | [] => false
  | c :: rest =>
    if c == '-' || c == '*' then matchTailDot rest
    else
      let ds := w.takeWhile Char.isDigit
      let after := w.dropWhile Char.isDigit
      if ds.isEmpty then false
      else
        match after with
        | '.' :: rest2 => matchTailDot rest2
        | _ => false

/-- Matcher for the source's bold-colon test: a leading double asterisk, one or
more characters other than an asterisk, then a double asterisk and a colon
(the end of the line is not anchored). -/
def matchBoldColon (s : String) : Bool :=
  match s.toList with
  | '*' :: '*' :: rest =>
    let m := rest.takeWhile (fun c => c != '*')
    let after := rest.dropWhile (fun c => c != '*')
    if m.isEmpty then false
    else
      match after with
      | '*' :: '*' :: ':' :: _ => true
      | _ => false
  | _ => false

/-- The page builder's `isHeading` test: the disjunction of the three regex
tests applied to a line, exactly as in the source. -/
def isHeadingLine (line : String) : Bool :=
  matchHashHeading line || matchBulletNum line || matchBoldColon line

/-- The rendering layer's `isBold` test: an entire line wrapped in a double
asterisk pair with nothing after the closing pair (anchored at both ends). -/
def matchBoldLine (s : String) : Bool :=
  match s.toList with
  | '*' :: '*' :: rest =>
    let m := rest.takeWhile (fun c => c != '*')
    let after := rest.dropWhile (fun c => c != '*')
    !m.isEmpty &&
      match after with
      | ['*', '*'] => true
      | _ => false
  | _ => false

/-- `LINES_PER_PAGE = 15`, the hard maximum of lines per page. -/
def LINES_PER_PAGE : Nat := 15

/-- `MIN_LINES_PER_PAGE = 10`, the soft minimum of lines per page. -/
def MIN_LINES_PER_PAGE : Nat := 10

/-- The mutable state of `paginateContent`'s loop: the pages pushed so far and
the current page's line buffer.  A page is kept as its list of lines; the
source stores the same list joined with a newline. -/
structure PgState where
  pages : List (List String)
  buf : List String
deriving DecidableEq

/-- One iteration of the `lines.forEach` body of `paginateContent`: an optional
flush before appending (heading test passed and the buffer holds between
`MIN_LINES_PER_PAGE` and `LINES_PER_PAGE` lines), the append, then an
unconditional flush when the buffer reached `LINES_PER_PAGE` lines or the line
is the last one. -/
def pgStep (isLast : Bool) (st : PgState) (line : String) : PgState :=
  let st1 : PgState :=
    if isHeadingLine line = true ∧ MIN_LINES_PER_PAGE ≤ st.buf.length ∧
        st.buf.length ≤ LINES_PER_PAGE then
      PgState.mk (st.pages ++ [st.buf]) []
    else st
  let buf2 := st1.buf ++ [line]
  if LINES_PER_PAGE ≤ buf2.length ∨ isLast = true then
    PgState.mk (st1.pages ++ [buf2]) []
  else
    PgState.mk st1.pages buf2

/-- Run the loop over the remaining lines; the source's
`index === lines.length - 1` test is the emptiness of the remaining tail. -/
def pgRun : PgState → List String → PgState
  | st, [] => st
  | st, line :: rest => pgRun (pgStep rest.isEmpty st line) rest

/-- The trailing `if (currentPageLines.length > 0)` push of `paginateContent`. -/
def pgFinish (st : PgState) : List (List String) :=
  if 0 < st.buf.length then st.pages ++ [st.buf] else st.pages

/-- The page builder on an already split-and-filtered list of lines, producing
each page as its list of lines. -/
def paginateLines (lines : List String) : List (List String) :=
  pgFinish (pgRun (PgState.mk [] []) lines)

/-- The pages of `paginateContent content`, each page given as its list of
lines. -/
def paginatePages (content : String) : List (List String) :=
  paginateLines (filteredLines content)

/-- `paginateContent` exactly as in the source: each completed page is pushed
as its lines joined with a newline. -/
def paginateContent (content : String) : List String :=
  (paginatePages content).map (fun p => String.intercalate "\n" p)

/-- A parsed section of `parseAnalysis`: a title and its content lines. -/
structure Section where
  title : String
  content : List String
deriving DecidableEq

/-- Remove a literal leading character sequence, or fail. -/
def dropPref : List Char → List Char → Option (List Char)
  | [], rest => some rest
  | _ :: _, [] => none
  | k :: ks, c :: cs => if k == c then dropPref ks cs else none

/-- Matcher for `parseAnalysis`'s keyword-heading regex: one of the four
keywords spanning the whole line up to an optional colon and trailing
whitespace, case-insensitively. -/
def matchKeywordHeading (s : String) : Bool :=
  let cs := s.toList.map Char.toLower
  ["summary", "key topics", "questions", "overview"].any (fun kw =>
    match dropPref kw.toList cs with
    | some rest =>
      (match rest with
        | ':' :: r => r
        | r => r).all isJsWs
    | none => false)

/-- Matcher for `parseAnalysis`'s numbered-list-start regex: a leading digit
run, a dot, then one whitespace character. -/
def matchNumberedStart (s : String) : Bool :=
  let cs := s.toList
  let ds := cs.takeWhile Char.isDigit
  let rest := cs.dropWhile Char.isDigit
  !ds.isEmpty &&
    match rest with
    | '.' :: c :: _ => isJsWs c
    | _ => false

/-- Matcher for `parseAnalysis`'s bullet-start regex: a literal dash and space
followed by one more whitespace character. -/
def matchBulletStart (s : String) : Bool :=
  match s.toList with
  | '-' :: ' ' :: c :: _ => isJsWs c
  | _ => false

/-- The section-trigger test of `parseAnalysis`: keyword heading, numbered-list
start, or bullet start. -/
def isSectionTrigger (line : String) : Bool :=
  matchKeywordHeading line || matchNumberedStart line || matchBulletStart line

/-- JavaScript `line.replace(":", "")`: remove the first colon only. -/
def removeFirstColon : List Char → List Char
  | [] => []
  | c :: cs => if c == ':' then cs else c :: removeFirstColon cs

/-- The title taken from a trigger line: `line.replace(":", "").trim()`. -/
def sectionTitle (line : String) : String :=
  jsTrim (String.mk (removeFirstColon line.toList))

/-- The mutable state of `parseAnalysis`'s loop: the sections pushed so far,
the currently open section's title (none before the first trigger), and its
content lines. -/
structure PaState where
  sections : List Section
  curTitle : Option String
  curContent : List String
deriving DecidableEq

/-- One iteration of the `lines.forEach` body of `parseAnalysis`: a trigger
line closes the open section (when one is open) and opens a new one titled by
the line with its first colon removed and trimmed; any other line is appended
to the open content buffer. -/
def paStep (st : PaState) (line : String) : PaState :=
  if isSectionTrigger line = true then
    let secs :=
      match st.curTitle with
      | some t => st.sections ++ [Section.mk t st.curContent]
      | none => st.sections
    PaState.mk secs (some (sectionTitle line)) []
  else
    PaState.mk st.sections st.curTitle (st.curContent ++ [line])

/-- `parseAnalysis` on an already split-and-filtered list of lines: fold the
loop body, then push the still-open section, or fall back to a single
section titled `Analysis` holding every line when no trigger was ever seen and
at least one line exists. -/
def parseLines (lines : List String) : List Section :=
  let st := lines.foldl paStep (PaState.mk [] none [])
  match st.curTitle with
  | some t => st.sections ++ [Section.mk t st.curContent]
  | none => if 0 < lines.length then [Section.mk "Analysis" lines] else []

/-- `parseAnalysis` exactly as in the source: split on newlines, drop
whitespace-only lines, then run the sectioning loop. -/
def parseAnalysis (text : String) : List Section :=
  parseLines (filteredLines text)

/-- `handleNextPage`: `Math.min(prev + 1, totalPages)`. -/
def handleNextPage (totalPages current : Int) : Int :=
  min (current + 1) totalPages

/-- `handlePreviousPage`: `Math.max(prev - 1, 1)`. -/
def handlePreviousPage (current : Int) : Int :=
  max (current - 1) 1

/-! ## Helper lemmas about the pagination loop -/

/-- One loop iteration conserves the accumulated lines: the flattened pages
followed by the buffer grow exactly by the processed line. -/
lemma pgStep_flat (isLast : Bool) (st : PgState) (line : String) :
    (pgStep isLast st line).pages.flatten ++ (pgStep isLast st line).buf =
      st.pages.flatten ++ st.buf ++ [line] := by
  simp only [pgStep]
  split_ifs <;> simp [List.flatten_append]

/-- Running the loop and pushing the leftover buffer conserves the
accumulated lines followed by the still-unprocessed ones. -/
lemma pgRun_flat : ∀ (ls : List String) (st : PgState),
    (pgFinish (pgRun st ls)).flatten = st.pages.flatten ++ st.buf ++ ls := by
  intro ls
  induction ls with
  | nil =>
      intro st
      simp only [pgRun, pgFinish]
      split_ifs with h
      · simp [List.flatten_append]
      · have hb : st.buf = [] := by
          cases hbuf : st.buf with
          | nil => rfl
          | cons a l => rw [hbuf] at h; simp at h
        simp [hb]
  | cons line rest ih =>
      intro st
      simp only [pgRun]
      rw [ih, pgStep_flat]
      simp

/-- A non-final iteration preserves the loop invariant: every completed page
holds between the soft minimum and the hard maximum of lines, and the buffer
stays strictly below the hard maximum. -/
lemma pgStep_inv (st : PgState) (line : String)
    (hp : ∀ p ∈ st.pages, MIN_LINES_PER_PAGE ≤ p.length ∧ p.length ≤ LINES_PER_PAGE)
    (hb : st.buf.length < LINES_PER_PAGE) :
    (∀ p ∈ (pgStep false st line).pages,
        MIN_LINES_PER_PAGE ≤ p.length ∧ p.length ≤ LINES_PER_PAGE) ∧
    (pgStep false st line).buf.length < LINES_PER_PAGE := by
  simp only [pgStep]
  split_ifs with h1 h2 h3
  · exfalso
    rcases h2 with h2 | h2
    · simp only [List.nil_append, List.length_cons, List.length_nil] at h2
      have : LINES_PER_PAGE = 15 := rfl
      omega
    · exact absurd h2 (by decide)
  · refine ⟨?_, by norm_num [LINES_PER_PAGE]⟩
    intro p hmem
    simp only [List.mem_append, List.mem_singleton] at hmem
    rcases hmem with hmem | hmem
    · exact hp p hmem
    · subst hmem; exact ⟨h1.2.1, h1.2.2⟩
  · refine ⟨?_, by norm_num [LINES_PER_PAGE]⟩
    intro p hmem
    simp only [List.mem_append, List.mem_singleton] at hmem
    rcases hmem with hmem | hmem
    · exact hp p hmem
    · subst hmem
      have hlen : (st.buf ++ [line]).length = st.buf.length + 1 := by simp
      rcases h3 with h3 | h3
      · rw [hlen] at h3 ⊢
        have hmin : MIN_LINES_PER_PAGE = 10 := rfl
        have hmax : LINES_PER_PAGE = 15 := rfl
        omega
      · exact absurd h3 (by decide)
  · refine ⟨hp, ?_⟩
    push_neg at h3
    have := h3.1
    simp only [List.length_append, List.length_cons, List.length_nil] at this ⊢
    omega

/-- The iteration on the last line always flushes: the buffer comes back
empty, every page respects the hard maximum, and every page but the last
respects the soft minimum, assuming the incoming state did. -/
lemma pgStep_last (st : PgState) (line : String)
    (hp : ∀ p ∈ st.pages, MIN_LINES_PER_PAGE ≤ p.length ∧ p.length ≤ LINES_PER_PAGE)
    (hb : st.buf.length < LINES_PER_PAGE) :
    (pgStep true st line).buf = [] ∧
    (∀ p ∈ (pgStep true st line).pages, p.length ≤ LINES_PER_PAGE) ∧
    (∀ p ∈ (pgStep true st line).pages.dropLast, MIN_LINES_PER_PAGE ≤ p.length) := by
  simp only [pgStep]
  split_ifs with h1 h2 h3
  · refine ⟨rfl, ?_, ?_⟩
    · intro p hmem
      simp only [List.nil_append, List.mem_append, List.mem_singleton] at hmem
      rcases hmem with (hmem | hmem) | hmem
      · exact (hp p hmem).2
      · subst hmem; exact h1.2.2
      · subst hmem; simp [LINES_PER_PAGE]
    · intro p hmem
      rw [List.nil_append, List.dropLast_concat] at hmem
      simp only [List.mem_append, List.mem_singleton] at hmem
      rcases hmem with hmem | hmem
      · exact (hp p hmem).1
      · subst hmem; exact h1.2.1
  · exact absurd (Or.inr trivial) h2
  · refine ⟨rfl, ?_, ?_⟩
    · intro p hmem
      simp only [List.mem_append, List.mem_singleton] at hmem
      rcases hmem with hmem | hmem
      · exact (hp p hmem).2
      · subst hmem
        simp only [List.length_append, List.length_cons, List.length_nil]
        omega
    · intro p hmem
      rw [List.dropLast_concat] at hmem
      exact (hp p hmem).1
  · exact absurd (Or.inr trivial) h3

/-- Running the loop on a non-empty line list from an invariant-respecting
state ends with an empty buffer, every page within the hard maximum, and every
non-final page at or above the soft minimum. -/
lemma pgRun_bounds : ∀ (ls : List String) (st : PgState), ls ≠ [] →
    (∀ p ∈ st.pages, MIN_LINES_PER_PAGE ≤ p.length ∧ p.length ≤ LINES_PER_PAGE) →
    st.buf.length < LINES_PER_PAGE →
    (pgRun st ls).buf = [] ∧
    (∀ p ∈ (pgRun st ls).pages, p.length ≤ LINES_PER_PAGE) ∧
    (∀ p ∈ (pgRun st ls).pages.dropLast, MIN_LINES_PER_PAGE ≤ p.length) := by
  intro ls
  induction ls with
  | nil => intro st h; exact absurd rfl h
  | cons line rest ih =>
      intro st _ hp hb
      cases rest with
      | nil => simpa [pgRun] using pgStep_last st line hp hb
      | cons l2 rs =>
          have hstep := pgStep_inv st line hp hb
          simpa [pgRun] using
            ih (pgStep (l2 :: rs).isEmpty st line) (by simp) (by simpa using hstep.1)
              (by simpa using hstep.2)

/-- On a line that fails the heading test the iteration reduces to append
followed by the unconditional flush check. -/
lemma pgStep_noHead (isLast : Bool) (st : PgState) (line : String)
    (hline : isHeadingLine line = false) :
    pgStep isLast st line =
      if LINES_PER_PAGE ≤ (st.buf ++ [line]).length ∨ isLast = true then
        PgState.mk (st.pages ++ [st.buf ++ [line]]) []
      else PgState.mk st.pages (st.buf ++ [line]) := by
  have h1 : ¬(isHeadingLine line = true ∧ MIN_LINES_PER_PAGE ≤ st.buf.length ∧
      st.buf.length ≤ LINES_PER_PAGE) := by
    rintro ⟨hh, -⟩
    rw [hline] at hh
    exact absurd hh (by decide)
  simp only [pgStep, if_neg h1]

/-- When no remaining line passes the heading test, every page except possibly
the final one comes out with exactly the hard maximum of lines. -/
lemma pgRun_noHead : ∀ (ls : List String) (st : PgState),
    (∀ l ∈ ls, isHeadingLine l = false) →
    (∀ p ∈ st.pages, p.length = LINES_PER_PAGE) →
    st.buf.length < LINES_PER_PAGE →
    ∀ p ∈ (pgFinish (pgRun st ls)).dropLast, p.length = LINES_PER_PAGE := by
  intro ls
  induction ls with
  | nil =>
      intro st _ hp _
      simp only [pgRun, pgFinish]
      split_ifs with h
      · rw [List.dropLast_concat]; exact hp
      · intro p hmem; exact hp p (List.dropLast_subset _ hmem)
  | cons line rest ih =>
      intro st hnh hp hb
      have hline : isHeadingLine line = false := hnh line (by simp)
      cases rest with
      | nil =>
          have hpg : pgRun st [line] = pgStep true st line := by simp [pgRun]
          rw [hpg, pgStep_noHead true st line hline, if_pos (Or.inr rfl)]
          simp only [pgFinish]
          rw [if_neg (by simp), List.dropLast_concat]
          exact hp
      | cons l2 rs =>
          have hpg : pgRun st (line :: l2 :: rs) =
              pgRun (pgStep false st line) (l2 :: rs) := by
            simp [pgRun]
          rw [hpg, pgStep_noHead false st line hline]
          by_cases h2 : LINES_PER_PAGE ≤ (st.buf ++ [line]).length ∨ (false = true)
          · rw [if_pos h2]
            have hlen : (st.buf ++ [line]).length = LINES_PER_PAGE := by
              rcases h2 with h2 | h2
              · simp only [List.length_append, List.length_cons, List.length_nil] at h2 ⊢
                omega
              · exact absurd h2 (by decide)
            apply ih
            · intro l hl; exact hnh l (List.mem_cons_of_mem _ hl)
            · intro p hmem
              rcases List.mem_append.mp hmem with hmem | hmem
              · exact hp p hmem
              · rw [List.mem_singleton.mp hmem]; exact hlen
            · norm_num [LINES_PER_PAGE]
          · rw [if_neg h2]
            apply ih
            · intro l hl; exact hnh l (List.mem_cons_of_mem _ hl)
            · exact hp
            · push_neg at h2
              have := h2.1
              simp only [List.length_append, List.length_cons, List.length_nil] at this ⊢
              omega

/-- Fewer than the soft minimum of lines in total: the loop never flushes
before its last line, which then flushes everything as the single page. -/
lemma pgRun_small : ∀ (ls : List String) (acc : List String), ls ≠ [] →
    acc.length + ls.length < MIN_LINES_PER_PAGE →
    pgRun (PgState.mk [] acc) ls = PgState.mk [acc ++ ls] [] := by
  intro ls
  induction ls with
  | nil => intro acc h; exact absurd rfl h
  | cons line rest ih =>
      intro acc _ hlen
      have h1 : ¬(isHeadingLine line = true ∧ MIN_LINES_PER_PAGE ≤ acc.length ∧
          acc.length ≤ LINES_PER_PAGE) := by
        rintro ⟨-, hge, -⟩
        simp only [List.length_cons] at hlen
        omega
      cases rest with
      | nil =>
          have hpg : pgRun (PgState.mk [] acc) [line] =
              pgStep true (PgState.mk [] acc) line := by
            simp [pgRun]
          rw [hpg]
          simp only [pgStep, if_neg h1, if_pos (Or.inr rfl)]
          simp
      | cons l2 rs =>
          have hstep : pgStep (l2 :: rs).isEmpty (PgState.mk [] acc) line =
              PgState.mk [] (acc ++ [line]) := by
            simp only [List.isEmpty_cons, pgStep, if_neg h1]
            rw [if_neg]
            rintro (hge | hfalse)
            · simp only [List.length_append, List.length_cons, List.length_nil] at hge hlen
              have : MIN_LINES_PER_PAGE = 10 := rfl
              have hmax : LINES_PER_PAGE = 15 := rfl
              omega
            · exact absurd hfalse (by decide)
          have hpg : pgRun (PgState.mk [] acc) (line :: l2 :: rs) =
              pgRun (PgState.mk [] (acc ++ [line])) (l2 :: rs) := by
            simp only [pgRun, hstep]
          rw [hpg, ih (acc ++ [line]) (by simp) (by simp at hlen ⊢; omega)]
          simp

/-! ## Helper lemmas about the sectioning loop -/

/-- Before the first trigger, non-trigger lines only pile up in the content
buffer of the still-untitled state. -/
lemma paFold_nonTrigger : ∀ (pre : List String) (acc : List String),
    (∀ l ∈ pre, isSectionTrigger l = false) →
    List.foldl paStep (PaState.mk [] none acc) pre = PaState.mk [] none (acc ++ pre) := by
  intro pre
  induction pre with
  | nil => intro acc _; simp
  | cons l ls ih =>
      intro acc hnt
      have hl : isSectionTrigger l = false := hnt l (by simp)
      have hstep : paStep (PaState.mk [] none acc) l = PaState.mk [] none (acc ++ [l]) := by
        simp [paStep, hl]
      rw [List.foldl_cons, hstep, ih (acc ++ [l]) (fun x hx => hnt x (List.mem_cons_of_mem _ hx))]
      simp

/-- Once a section is open it stays open: the loop never resets the current
title to none. -/
lemma paFold_some : ∀ (ls : List String) (st : PaState), st.curTitle.isSome →
    (List.foldl paStep st ls).curTitle.isSome := by
  intro ls
  induction ls with
  | nil => intro st h; exact h
  | cons l rest ih =>
      intro st h
      rw [List.foldl_cons]
      apply ih
      simp only [paStep]
      split_ifs <;> simp_all

/-! ## Claim theorems -/

/-- C1 (amended): concatenating the lines of all pages produced by the page
builder, in page order, reproduces exactly the input's lines after dropping
whitespace-only lines — each surviving line kept verbatim (the source does not
trim the lines it keeps): no loss, no duplication, no reordering. -/
theorem paginate_roundTrip (content : String) :
    (paginatePages content).flatten = filteredLines content := by
  have h := pgRun_flat (filteredLines content) (PgState.mk [] [])
  simpa [paginatePages, paginateLines] using h

/-- C1 counterexample: on the input consisting of the single line with two
leading spaces, the pages reproduce the untrimmed line, not the trimmed one
claimed, so the round trip to trimmed lines fails. -/
theorem paginate_trim_cex :
    (paginatePages "  a").flatten ≠ (filteredLines "  a").map jsTrim ∧
    (paginatePages "  a").flatten = ["  a"] ∧
    (filteredLines "  a").map jsTrim = ["a"] := by decide

/-- C2: every page produced by the page builder has at most `LINES_PER_PAGE`
lines, and every page except possibly the final one has at least
`MIN_LINES_PER_PAGE` lines. -/
theorem pages_bounds (content : String) :
    (∀ p ∈ paginatePages content, p.length ≤ LINES_PER_PAGE) ∧
    (∀ p ∈ (paginatePages content).dropLast, MIN_LINES_PER_PAGE ≤ p.length) := by
  unfold paginatePages paginateLines
  cases hls : filteredLines content with
  | nil => simp [pgRun, pgFinish]
  | cons l rest =>
      have h := pgRun_bounds (l :: rest) (PgState.mk [] [])
        (by simp) (by simp) (by norm_num [LINES_PER_PAGE])
      have hfin : pgFinish (pgRun (PgState.mk [] []) (l :: rest)) =
          (pgRun (PgState.mk [] []) (l :: rest)).pages := by
        simp [pgFinish, h.1]
      rw [hfin]
      exact ⟨h.2.1, h.2.2⟩

/-- C2 witness: the single page produced for a two-line input respects the
hard maximum. -/
theorem pages_bounds_w : (["a", "b"] : List String).length ≤ LINES_PER_PAGE :=
  (pages_bounds "a\nb").1 ["a", "b"] (by decide)

/-- C3 (amended): the flush performed before appending a line happens exactly
when the line passes the page builder's combined heading test — which accepts
hash headings, leading bullet or numbered markers, and bold-colon lines alike —
and the buffer holds between `MIN_LINES_PER_PAGE` and `LINES_PER_PAGE` lines
inclusive; in particular a bulleted line such as the dash-marked one below
does pass the test and does trigger the pre-append page break. -/
theorem preflush_iff :
    (∀ (st : PgState) (line : String),
      ((pgStep false st line).pages = st.pages ++ [st.buf] ∧
        (pgStep false st line).buf = [line]) ↔
      (isHeadingLine line = true ∧ MIN_LINES_PER_PAGE ≤ st.buf.length ∧
        st.buf.length ≤ LINES_PER_PAGE)) ∧
    isHeadingLine "- item" = true := by
  constructor
  · intro st line
    by_cases h1 : isHeadingLine line = true ∧ MIN_LINES_PER_PAGE ≤ st.buf.length ∧
        st.buf.length ≤ LINES_PER_PAGE
    · simp only [pgStep, if_pos h1]
      rw [if_neg (by norm_num [LINES_PER_PAGE])]
      exact ⟨fun _ => h1, fun _ => ⟨rfl, rfl⟩⟩
    · simp only [pgStep, if_neg h1]
      by_cases h2 : LINES_PER_PAGE ≤ (st.buf ++ [line]).length ∨ (false = true)
      · rw [if_pos h2]
        constructor
        · rintro ⟨-, hbuf⟩
          exact absurd hbuf.symm (by simp)
        · intro hcond; exact absurd hcond h1
      · rw [if_neg h2]
        constructor
        · rintro ⟨hpages, -⟩
          have := congrArg List.length hpages
          simp at this
        · intro hcond; exact absurd hcond h1
  · decide

/-- C3 counterexample: after ten plain lines, a dash-marked bullet line
triggers the pre-append break, yielding a ten-line page and a one-line page
instead of the single eleven-line page the claim predicts. -/
theorem preflush_bullet_cex :
    paginatePages "p1\np2\np3\np4\np5\np6\np7\np8\np9\np10\n- item" =
      [["p1", "p2", "p3", "p4", "p5", "p6", "p7", "p8", "p9", "p10"], ["- item"]] ∧
    paginatePages "p1\np2\np3\np4\np5\np6\np7\np8\np9\np10\n- item" ≠
      [["p1", "p2", "p3", "p4", "p5", "p6", "p7", "p8", "p9", "p10", "- item"]] := by
  decide

/-- C4 (amended): on the scenario input, the section parser returns exactly one
section, titled `Analysis`, holding all five lines: a line of leading hash
marks is not one of its triggers (those are only the four keyword headings, a
numbered-list start, and a dash-space-whitespace bullet start). -/
theorem parseAnalysis_hash_fallback :
    parseAnalysis "## Intro\nLine1\nLine2\n## Topic A\nLine3" =
      [Section.mk "Analysis" ["## Intro", "Line1", "Line2", "## Topic A", "Line3"]] := by
  decide

/-- C4 counterexample: the parser does not return the two claimed sections
titled by the hash-marked lines. -/
theorem parseAnalysis_hash_cex :
    parseAnalysis "## Intro\nLine1\nLine2\n## Topic A\nLine3" ≠
      [Section.mk "Intro" ["Line1", "Line2"], Section.mk "Topic A" ["Line3"]] := by
  decide

/-- C5: the single line wrapped in double asterisks and ending in a colon
passes the page builder's heading test and fails the rendering layer's
bold-emphasis test, which requires the bold wrap with no trailing colon. -/
theorem boldColon_heading_not_bold :
    isHeadingLine "**Important**:" = true ∧ matchBoldLine "**Important**:" = false := by
  decide

/-- The twenty-five plain-line scenario input. -/
def sample25 : String := "x\nx\nx\nx\nx\nx\nx\nx\nx\nx\nx\nx\nx\nx\nx\nx\nx\nx\nx\nx\nx\nx\nx\nx\nx"

set_option maxRecDepth 8192 in
/-- C6: when no surviving line passes the heading test, every page except the
last has exactly `LINES_PER_PAGE` lines; in particular twenty-five plain lines
yield exactly two pages of fifteen and ten lines. -/
theorem plain_pages_full :
    (∀ content, (∀ l ∈ filteredLines content, isHeadingLine l = false) →
      ∀ p ∈ (paginatePages content).dropLast, p.length = LINES_PER_PAGE) ∧
    paginatePages sample25 = [List.replicate 15 "x", List.replicate 10 "x"] := by
  constructor
  · intro content h
    exact pgRun_noHead (filteredLines content) (PgState.mk [] []) h (by simp)
      (by norm_num [LINES_PER_PAGE])
  · decide

set_option maxRecDepth 8192 in
/-- C6 witness: the non-final page of the twenty-five-line scenario indeed has
exactly `LINES_PER_PAGE` lines. -/
theorem plain_pages_full_w : (List.replicate 15 "x").length = LINES_PER_PAGE :=
  plain_pages_full.1 sample25 (by decide) (List.replicate 15 "x") (by decide)

/-- C7: an input with no non-blank line yields zero pages and zero sections;
both functions are total Lean functions, so they return normally on any such
degenerate input. -/
theorem empty_input_total (content : String) (h : filteredLines content = []) :
    paginatePages content = [] ∧ parseAnalysis content = [] := by
  rw [paginatePages, parseAnalysis, h]
  exact ⟨rfl, rfl⟩

/-- C7 witness: the empty string has no non-blank line, zero pages and zero
sections. -/
theorem empty_input_total_w : paginatePages "" = [] ∧ parseAnalysis "" = [] :=
  empty_input_total "" (by decide)

/-- C8: an input with at least one non-blank line yields at least one page,
and an input with fewer than `MIN_LINES_PER_PAGE` non-blank lines yields
exactly one page. -/
theorem pages_nonempty (content : String) (h : filteredLines content ≠ []) :
    1 ≤ (paginatePages content).length ∧
    ((filteredLines content).length < MIN_LINES_PER_PAGE →
      (paginatePages content).length = 1) := by
  constructor
  · have hflat : (paginatePages content).flatten = filteredLines content := by
      simpa [paginatePages, paginateLines] using
        pgRun_flat (filteredLines content) (PgState.mk [] [])
    cases hpp : paginatePages content with
    | nil => rw [hpp] at hflat; simp only [List.flatten_nil] at hflat; exact absurd hflat.symm h
    | cons a l => simp
  · intro hsmall
    have hrun := pgRun_small (filteredLines content) [] h (by simpa using hsmall)
    simp [paginatePages, paginateLines, hrun, pgFinish]

/-- C8 witness: the one-line input yields exactly one page. -/
theorem pages_nonempty_w :
    1 ≤ (paginatePages "a").length ∧
    ((filteredLines "a").length < MIN_LINES_PER_PAGE → (paginatePages "a").length = 1) :=
  pages_nonempty "a" (by decide)

/-- C9: with a total of at least one page and a current page inside the valid
range, both navigation handlers land inside the valid range: next clamps at
the total, previous clamps at one. -/
theorem nav_clamped (totalPages current : Int) (h1 : 1 ≤ totalPages)
    (h2 : 1 ≤ current) (h3 : current ≤ totalPages) :
    1 ≤ handleNextPage totalPages current ∧ handleNextPage totalPages current ≤ totalPages ∧
    1 ≤ handlePreviousPage current ∧ handlePreviousPage current ≤ totalPages := by
  unfold handleNextPage handlePreviousPage
  omega

/-- C9 witness: from page two of three, both handlers stay within one and
three. -/
theorem nav_clamped_w :
    1 ≤ handleNextPage 3 2 ∧ handleNextPage 3 2 ≤ 3 ∧
    1 ≤ handlePreviousPage 2 ∧ handlePreviousPage 2 ≤ 3 :=
  nav_clamped 3 2 (by decide) (by decide) (by decide)

/-- C10: when the filtered lines start with a non-empty run of non-trigger
lines followed by a trigger line, the section parser returns exactly what it
returns on the input without that run: the lines before the first trigger are
accumulated into the untitled buffer, which a trigger discards unsaved, so
they appear in no section of the output. -/
theorem preamble_dropped (text : String) (pre : List String) (trig : String)
    (rest : List String) (hsplit : filteredLines text = pre ++ trig :: rest)
    (hpre : pre ≠ []) (hnt : ∀ l ∈ pre, isSectionTrigger l = false)
    (ht : isSectionTrigger trig = true) :
    parseAnalysis text = parseLines (trig :: rest) := by
  rw [parseAnalysis, hsplit]
  have hfold : List.foldl paStep (PaState.mk [] none []) (pre ++ trig :: rest) =
      List.foldl paStep (PaState.mk [] none []) (trig :: rest) := by
    rw [List.foldl_append, paFold_nonTrigger pre [] hnt]
    rw [List.foldl_cons, List.foldl_cons]
    have hsame : paStep (PaState.mk [] none ([] ++ pre)) trig =
        paStep (PaState.mk [] none []) trig := by
      simp [paStep, ht]
    rw [hsame]
  have hsome : (List.foldl paStep (PaState.mk [] none []) (trig :: rest)).curTitle.isSome := by
    rw [List.foldl_cons]
    apply paFold_some
    simp [paStep, ht]
  simp only [parseLines, hfold]
  rcases hopt : (List.foldl paStep (PaState.mk [] none []) (trig :: rest)).curTitle with - | t
  · rw [hopt] at hsome; exact absurd hsome (by simp)
  · rfl

/-- C10 witness: a plain line ahead of a keyword trigger is dropped — the
result equals the parse of the trigger and its content alone. -/
theorem preamble_dropped_w :
    parseAnalysis "hello world\nsummary:\nalpha" = parseLines ["summary:", "alpha"] :=
  preamble_dropped "hello world\nsummary:\nalpha" ["hello world"] "summary:" ["alpha"]
    (by decide) (by decide) (by decide) (by decide)

end VidyaApp
